import Mathlib

/-!
Verification of the PMC ingestion pipeline of the Biology Space Engine
repository.  The Python sources under `backend/` are shallowly embedded as
executable Lean definitions:

* `clients/pmc_client.py`   — section-title normalization, body-section
  parsing, full-text derivation (`PMCAPIClient`);
* `clients/ai_client.py`    — enrichment fallback and embedding fallback
  (`AIEnricher`);
* `processors/batch_processor.py` — per-article pipeline, run statistics,
  and the relational upsert (`PMCBatchProcessor`);
* `utils/helpers.py`        — PMC identifier extraction.

Remote calls (HTTP fetch, the language-model call, the embedding model)
are modelled as explicit oracle functions passed to the embedded code, and
database writes are recorded as an explicit effect trace, so the control
flow of the Python code becomes a pure, executable function.
-/

namespace SpaceBio

/-- Python `str.lower()` (ASCII case mapping), by characters. -/
def strLower (s : String) : String :=
  String.mk (s.toList.map Char.toLower)

/-- Python `str.upper()` (ASCII case mapping), by characters. -/
def strUpper (s : String) : String :=
  String.mk (s.toList.map Char.toUpper)

/-- Python `str.strip()`: remove leading and trailing whitespace. -/
def strTrim (s : String) : String :=
  String.mk (((s.toList.dropWhile Char.isWhitespace).reverse.dropWhile
    Char.isWhitespace).reverse)

/-- Python `s[:n]` on code points. -/
def strTake (s : String) (n : Nat) : String :=
  String.mk (s.toList.take n)

/-- Python `s[n:]` on code points. -/
def strDrop (s : String) (n : Nat) : String :=
  String.mk (s.toList.drop n)

/-- Python `s[:-n]` on code points. -/
def strDropRight (s : String) (n : Nat) : String :=
  String.mk ((s.toList.reverse.drop n).reverse)

/-- Python `s.startswith(pat)`. -/
def strStarts (s pat : String) : Bool :=
  pat.toList.isPrefixOf s.toList

/-- Python `s.endswith(pat)`. -/
def strEnds (s pat : String) : Bool :=
  pat.toList.reverse.isPrefixOf s.toList.reverse

/-- Python `s.replace(a, b)` for single-character pattern and
replacement. -/
def charReplace (s : String) (a b : Char) : String :=
  String.mk (s.toList.map (fun c => if c = a then b else c))

/-- Python `sep.join(parts)`. -/
def strIntercalate (sep : String) : List String → String
  | [] => ""
  | p :: ps => ps.foldl (fun acc x => acc ++ sep ++ x) p

/-- Whether `pat` occurs as a contiguous run inside `l`. -/
def hasInfix (l pat : List Char) : Bool :=
  if pat.isPrefixOf l then true
  else
    match l with
    | [] => false
    | _ :: rest => hasInfix rest pat

/-- Python `pat in s` (substring containment), on the character list of the
string. -/
def containsSub (s pat : String) : Bool :=
  hasInfix s.toList pat.toList

/-- Model of `PMCAPIClient._normalize_section_title` (pmc_client.py:242-257):
lowercases the title and maps it onto a canonical key by substring tests,
in the order written in the Python `if`/`elif` chain; any other title is
slugged by replacing spaces with underscores. -/
def normalizeSectionTitle (title : String) : String :=
  let title_lower := strLower title
  if containsSub title_lower "introduction" || containsSub title_lower "background" then
    "introduction"
  else if containsSub title_lower "method" || containsSub title_lower "material" then
    "methods"
  else if containsSub title_lower "result" then
    "results"
  else if containsSub title_lower "discussion" then
    "discussion"
  else if containsSub title_lower "conclusion" then
    "conclusion"
  else
    charReplace title_lower ' ' '_'

/-- The substring-rule table exactly as the specification lists it: each
entry pairs the trigger substrings with the canonical key, in precedence
order. -/
def canonicalRules : List (List String × String) :=
  [(["introduction", "background"], "introduction"),
   (["method", "material"], "methods"),
   (["result"], "results"),
   (["discussion"], "discussion"),
   (["conclusion"], "conclusion")]

/-- Section-title normalization as worded by the specification: the first
rule of `canonicalRules` (in listed order) whose substrings match the
lowercased title decides the key; otherwise the lowercased title is slugged
(spaces to underscores). -/
def claimNormalize (title : String) : String :=
  let tl := strLower title
  match canonicalRules.find? (fun r => r.1.any (fun p => containsSub tl p)) with
  | some r => r.2
  | none => charReplace tl ' ' '_'

/-- One `<sec>` element of the body, as seen by
`PMCAPIClient._parse_body_sections`: `titleText` is the direct text of the
first nested `<title>` element (`none` when there is no `<title>`, or when
the title has no direct text because it is entirely wrapped in child
markup), and `text` is the flattened text of the whole section
(`_get_element_text`). -/
structure Sec where
  titleText : Option String
  text : String
deriving DecidableEq

/-- Assignment `sections[key] = text` / `sections[key] += '\n\n' + text`
on the insertion-ordered dictionary (pmc_client.py:234-238): if `key` is
already bound, its text is extended with a blank line and the new text,
otherwise the pair is appended. -/
def insertSection : List (String × String) → String → String → List (String × String)
  | [], k, t => [(k, t)]
  | (k', t') :: rest, k, t =>
    if k' = k then (k', t' ++ "\n\n" ++ t) :: rest
    else (k', t') :: insertSection rest k t

/-- The key a `<sec>` contributes, per the guard
`if title_elem is not None and title_elem.text:` (pmc_client.py:225):
sections whose first title has no (or empty) direct text yield `none`;
otherwise the key is `_normalize_section_title(title.lower().strip())`. -/
def secKey : Sec → Option String
  | s =>
    match s.titleText with
    | none => none
    | some t => if t = "" then none else some (normalizeSectionTitle (strTrim (strLower t)))

/-- Model of `PMCAPIClient._parse_body_sections` (pmc_client.py:219-240) over the
document-order list of `<sec>` elements. -/
def parseBodySections (secs : List Sec) : List (String × String) :=
  secs.foldl
    (fun acc s =>
      match secKey s with
      | none => acc
      | some k => insertSection acc k s.text)
    []

/-- Texts of the body sections that contribute the key `key`, in encounter
order. -/
def keyTexts (key : String) (secs : List Sec) : List String :=
  secs.filterMap (fun s =>
    match secKey s with
    | some k => if k = key then some s.text else none
    | none => none)

/-- The canonical section order of `PMCAPIClient._extract_full_text`
(pmc_client.py:372). -/
def sectionOrder : List String :=
  ["introduction", "methods", "results", "discussion", "conclusion"]

/-- Model of `PMCAPIClient._extract_full_text` (pmc_client.py:361-383): abstract
part (when truthy), then the canonical sections present in `sectionOrder`,
then the remaining sections in insertion order, joined by blank lines.
The sections dictionary is modelled as an insertion-ordered association
list. -/
def extractFullText (abstract : String) (sections : List (String × String)) : String :=
  let parts := if abstract ≠ "" then ["ABSTRACT\n" ++ abstract] else []
  let parts := parts ++ sectionOrder.foldl
    (fun acc name =>
      match sections.lookup name with
      | some t => acc ++ [strUpper name ++ "\n" ++ t]
      | none => acc)
    []
  let parts := parts ++ sections.foldl
    (fun acc kv =>
      if sectionOrder.contains kv.1 then acc
      else acc ++ [strUpper kv.1 ++ "\n" ++ kv.2])
    []
  strIntercalate "\n\n" parts

/-- The full-text concatenation rule as the specification words it: the
abstract (when non-empty, under the upper-cased header `ABSTRACT`), then
each canonical section present, in the fixed order, then every remaining
section in encounter order, each under its upper-cased key, joined by
blank lines. -/
def claimFullText (abstract : String) (sections : List (String × String)) : String :=
  let abstractPart := if abstract = "" then [] else ["ABSTRACT\n" ++ abstract]
  let canonicalParts := sectionOrder.filterMap
    (fun name => (sections.lookup name).map (fun t => strUpper name ++ "\n" ++ t))
  let otherParts := (sections.filter (fun kv => !sectionOrder.contains kv.1)).map
    (fun kv => strUpper kv.1 ++ "\n" ++ kv.2)
  strIntercalate "\n\n" (abstractPart ++ canonicalParts ++ otherParts)

/-- The regular expression `PMC(\d+)` matches at the head of `l`: the
first three characters are `P`, `M`, `C` and the fourth is a digit. -/
def pmcMatchHead (l : List Char) : Bool :=
  match l with
  | 'P' :: 'M' :: 'C' :: d :: _ => d.isDigit
  | _ => false

/-- Semantics of `re.search(r'PMC(\d+)', url)` on a character list: scan left
to right for the first position where `PMC` followed by at least one digit
matches, and return the maximal digit run captured by the group. -/
def pmcScan : List Char → Option (List Char)
  | [] => none
  | c :: cs =>
    if pmcMatchHead (c :: cs) then some (((c :: cs).drop 3).takeWhile Char.isDigit)
    else pmcScan cs

/-- Model of `extract_pmc_id` (utils/helpers.py:6-17): `PMC` plus the captured digit
group of the first match, or `None` when the pattern does not occur. -/
def extract_pmc_id (url : String) : Option String :=
  (pmcScan url.toList).map (fun ds => "PMC" ++ String.mk ds)

/-- Model of `PMCBatchProcessor._extract_pmc_id` (batch_processor.py:307-313): same
pattern, but a missing match raises `ValueError` instead of returning
`None`. -/
def batchExtractPmcId (url : String) : Except String String :=
  match extract_pmc_id url with
  | some s => Except.ok s
  | none => Except.error ("Invalid PMC URL: " ++ url)

/-- Shape `EnrichedFacts`: the JSON object shape produced by
`AIEnricher.extract_structured_info` (ai_client.py:31-47).
`space_conditions` entries are `(type, value)` pairs and `entities`
entries are `(name, type)` pairs. -/
structure Enriched where
  hypothesis : String
  organisms : List String
  space_conditions : List (String × String)
  key_findings : List String
  implications : String
  knowledge_gaps : List String
  entities : List (String × String)
deriving DecidableEq

/-- Model of `AIEnricher._get_default_enriched_data` (ai_client.py:139-151). -/
def defaultEnrichedData : Enriched :=
  { hypothesis := "Not extracted"
    organisms := []
    space_conditions := []
    key_findings := []
    implications := "Not extracted"
    knowledge_gaps := []
    entities := [] }

/-- The response clean-up of `extract_structured_info`
(ai_client.py:71-79): strip the text, peel one leading ` ```json ` or
` ``` ` marker and one trailing ` ``` ` marker, and strip again before
`json.loads`. -/
def stripFences (s : String) : String :=
  let s1 := strTrim s
  let s2 := if strStarts s1 "```json" then strDrop s1 7 else s1
  let s3 := if strStarts s2 "```" then strDrop s2 3 else s2
  let s4 := if strEnds s3 "```" then strDropRight s3 3 else s3
  strTrim s4

/-- A `tenacity` `stop_after_attempt(3)` retry loop: run the attempts in
order, return the first success, re-raise the third failure. -/
def retry3 {α : Type} (f : Nat → Except String α) : Except String α :=
  match f 0 with
  | Except.ok a => Except.ok a
  | Except.error _ =>
    match f 1 with
    | Except.ok a => Except.ok a
    | Except.error _ => f 2

/-- The body of `AIEnricher.extract_structured_info` (ai_client.py:50-90)
for one attempt: `call` is the Groq chat completion (which may raise) and
`parse` is `json.loads` on the cleaned response (`none` = `JSONDecodeError`).
Both failure paths are caught inside the body and yield the default
structure, so the body itself never raises. -/
def extractStructuredInfoBody (call : Except String String)
    (parse : String → Option Enriched) : Enriched :=
  match call with
  | Except.error _ => defaultEnrichedData
  | Except.ok txt =>
    match parse (stripFences txt) with
    | none => defaultEnrichedData
    | some e => e

/-- Model of `AIEnricher.extract_structured_info` as deployed: the `@retry`
decorator (ai_client.py:19-22) wraps a body that never raises, so the
retry loop always returns after the first attempt.  `call` is indexed by
the attempt number so that retries would be observable if they occurred. -/
def extractStructuredInfo (call : Nat → Except String String)
    (parse : String → Option Enriched) : Enriched :=
  match retry3 (fun i => Except.ok (extractStructuredInfoBody (call i) parse)) with
  | Except.ok e => e
  | Except.error _ => defaultEnrichedData

/-- The enrichment call contract as the specification words it: the model
call itself is retried up to 3 times; only when all attempts fail (or the
final response is not valid JSON) does the default structure come back. -/
def claimRetriedExtract (call : Nat → Except String String)
    (parse : String → Option Enriched) : Enriched :=
  match retry3 call with
  | Except.error _ => defaultEnrichedData
  | Except.ok txt =>
    match parse (stripFences txt) with
    | none => defaultEnrichedData
    | some e => e

/-- Model of `AIEnricher.generate_embeddings` (ai_client.py:96-118) with the
embedding model's `encode` as an oracle.  On failure of the main call the
`except` branch probes `encode(["test"])` and builds one zero vector per
input text of length `len(probe)`; a probe result always has a length
(`hasattr(..., '__len__')`), so the literal 384 default is unreachable,
and a probe failure raises out of the function. -/
def generateEmbeddings (encode : List String → Except String (List (List Rat)))
    (texts : List String) : Except String (List (List Rat)) :=
  match encode texts with
  | Except.ok embs => Except.ok embs
  | Except.error _ =>
    match encode ["test"] with
    | Except.ok probe => Except.ok (texts.map (fun _ => List.replicate probe.length 0))
    | Except.error e => Except.error e

/-- The metadata dictionary of a parsed article
(`PMCAPIClient._parse_metadata`), restricted to the fields the batch
processor reads; absent keys are `none` (`dict.get`).  Authors are
`(first_name, last_name)` pairs. -/
structure Metadata where
  title : Option String := none
  abstract : Option String := none
  journal : Option String := none
  publication_date : Option String := none
  pmid : Option String := none
  doi : Option String := none
  authors : List (Option String × Option String) := []
  keywords : List String := []
deriving DecidableEq

/-- A parsed article as produced by `PMCAPIClient._parse_pmc_xml`:
metadata, the insertion-ordered sections dictionary, and the derived full
text. -/
structure ArticleData where
  metadata : Metadata
  sections : List (String × String)
  fullText : String
deriving DecidableEq

/-- One observable side effect of the per-article pipeline: a
processing-status upsert, the language-model call, an embedding call, a
write to one of the four sinks, or an error-log insert. -/
inductive Effect
  | statusUpdate (pmcId status : String)
  | modelCall (pmcId : String)
  | embedCall (pmcId : String) (texts : List String)
  | pgWrite (pmcId : String) (enriched : Enriched)
  | wvWrite (pmcId : String)
  | esWrite (pmcId : String)
  | kgWrite (pmcId : String)
  | errorLog (pmcId msg : String)
deriving DecidableEq

/-- Status value of the result dictionary of
`PMCBatchProcessor.process_single_article`: it only ever returns
`'success'` or `'skipped'` (every other outcome re-raises). -/
inductive SingleStatus
  | success
  | skipped
deriving DecidableEq

/-- The result dictionary of `process_single_article`. -/
structure SingleResult where
  pmcId : String
  status : SingleStatus
deriving DecidableEq

/-- The external collaborators of the pipeline, as oracles: `fetch` is
`PMCAPIClient.fetch_article`, `call` the Groq chat completion (indexed by
attempt number), `parseJson` is `json.loads` restricted to the
`EnrichedFacts` shape, `encode` the sentence-transformer model, and
`completed` the set of identifiers already marked `completed` in the
status table. -/
structure Env where
  fetch : String → Except String ArticleData
  call : Nat → Except String String
  parseJson : String → Option Enriched
  encode : List String → Except String (List (List Rat))
  completed : List String

/-- The guard of batch_processor.py:249: the article has a sections
dictionary that is non-empty and has at least one section whose stripped
text is non-empty. -/
def sectionsAvailable (art : ArticleData) : Bool :=
  !art.sections.isEmpty && art.sections.any (fun kv => strTrim kv.2 ≠ "")

/-- The per-section embedding loop of batch_processor.py:268-272: for each
section with truthy text, one embedding call; `emb[0]` raises `IndexError`
when the call returns an empty list.  Returns the section-embeddings
dictionary (or the raised error) plus the embedding-call trace. -/
def sectionEmbedLoop (encode : List String → Except String (List (List Rat)))
    (pmcId : String) :
    List (String × String) → Except String (List (String × List Rat)) × List Effect
  | [] => (Except.ok [], [])
  | (name, text) :: rest =>
    if text = "" then sectionEmbedLoop encode pmcId rest
    else
      let query := [strTake text 8000]
      match generateEmbeddings encode query with
      | Except.error e => (Except.error e, [Effect.embedCall pmcId query])
      | Except.ok [] =>
        (Except.error "IndexError: list index out of range", [Effect.embedCall pmcId query])
      | Except.ok (v :: _) =>
        let next := sectionEmbedLoop encode pmcId rest
        (next.1.map (fun l => (name, v) :: l), Effect.embedCall pmcId query :: next.2)

/-- Model of `PMCBatchProcessor.process_single_article` (batch_processor.py:234-305)
with its side effects made explicit: returns the result dictionary (or the
exception that propagates to `asyncio.gather`) together with the ordered
effect trace.  The search sink is modelled as available; sink writes
themselves are modelled as non-failing effects. -/
def processSingleArticle (env : Env) (url : String) :
    Except String SingleResult × List Effect :=
  match batchExtractPmcId url with
  | Except.error e => (Except.error e, [])
  | Except.ok pmcId =>
    let eff0 := [Effect.statusUpdate pmcId "processing"]
    match env.fetch pmcId with
    | Except.error e =>
      (Except.error e, eff0 ++ [Effect.errorLog pmcId e, Effect.statusUpdate pmcId "failed"])
    | Except.ok art =>
      if sectionsAvailable art then
        let enriched := extractStructuredInfo env.call env.parseJson
        let eff1 := eff0 ++ [Effect.modelCall pmcId]
        let ftQuery := [strTake art.fullText 8000]
        match generateEmbeddings env.encode ftQuery with
        | Except.error e =>
          (Except.error e,
           eff1 ++ [Effect.embedCall pmcId ftQuery, Effect.errorLog pmcId e,
                    Effect.statusUpdate pmcId "failed"])
        | Except.ok ftEmbs =>
          let eff2 := eff1 ++ [Effect.embedCall pmcId ftQuery]
          let sec := sectionEmbedLoop env.encode pmcId art.sections
          match sec.1 with
          | Except.error e =>
            (Except.error e,
             eff2 ++ sec.2 ++ [Effect.errorLog pmcId e, Effect.statusUpdate pmcId "failed"])
          | Except.ok _ =>
            match ftEmbs with
            | [] =>
              let e := "IndexError: list index out of range"
              (Except.error e,
               eff2 ++ sec.2 ++ [Effect.pgWrite pmcId enriched, Effect.errorLog pmcId e,
                                 Effect.statusUpdate pmcId "failed"])
            | _ :: _ =>
              (Except.ok { pmcId := pmcId, status := SingleStatus.success },
               eff2 ++ sec.2 ++
                 [Effect.pgWrite pmcId enriched, Effect.wvWrite pmcId, Effect.esWrite pmcId,
                  Effect.kgWrite pmcId, Effect.statusUpdate pmcId "completed"])
      else
        (Except.ok { pmcId := pmcId, status := SingleStatus.skipped },
         eff0 ++ [Effect.statusUpdate pmcId "skipped_no_sections"])

/-- The run statistics dictionary of `PMCBatchProcessor`
(batch_processor.py:41-48), restricted to the counters. -/
structure Stats where
  total : Nat
  success : Nat
  errors : Nat
  skipped : Nat
deriving DecidableEq

/-- The skip-already-completed filter of batch_processor.py:185-191: keeps
the URLs whose identifier is not yet completed, counts the others into
`skipped`; an invalid URL raises out of the whole run. -/
def filterUrls (completed : List String) : List String → Except String (List String × Nat)
  | [] => Except.ok ([], 0)
  | u :: us =>
    match batchExtractPmcId u with
    | Except.error e => Except.error e
    | Except.ok id =>
      match filterUrls completed us with
      | Except.error e => Except.error e
      | Except.ok (rest, sk) =>
        if completed.contains id then Except.ok (rest, sk + 1)
        else Except.ok (u :: rest, sk)

/-- Recursion core of the batch partition, structural on a fuel bound on
the list length. -/
def chunksOfAux {α : Type} (n : Nat) : Nat → List α → List (List α)
  | _, [] => []
  | 0, _ :: _ => []
  | fuel + 1, x :: xs => (x :: xs.take (n - 1)) :: chunksOfAux n fuel (xs.drop (n - 1))

/-- The batch partition `urls_to_process[i:i+batch_size]` of
batch_processor.py:196-197 (for a positive batch size). -/
def chunksOf {α : Type} (n : Nat) (l : List α) : List (List α) :=
  chunksOfAux n l.length l

/-- The per-result counting loop of batch_processor.py:211-219: an
exception counts as an error, a `'success'` result as a success, and a
`'skipped'` result as skipped. -/
def countBatch (results : List (Except String SingleResult)) (st : Stats) : Stats :=
  results.foldl
    (fun st r =>
      match r with
      | Except.error _ => { st with errors := st.errors + 1 }
      | Except.ok res =>
        match res.status with
        | SingleStatus.success => { st with success := st.success + 1 }
        | SingleStatus.skipped => { st with skipped := st.skipped + 1 })
    st

/-- Model of `PMCBatchProcessor.process_all_articles` (batch_processor.py:170-232):
set `total`, count the already-completed identifiers as skipped, then
process the remaining URLs batch by batch, folding each batch's results
into the statistics. -/
def processAllArticles (env : Env) (urls : List String) (batchSize : Nat) :
    Except String Stats :=
  match filterUrls env.completed urls with
  | Except.error e => Except.error e
  | Except.ok (toProcess, alreadyDone) =>
    let stats0 : Stats := ⟨urls.length, 0, 0, alreadyDone⟩
    let batches := chunksOf batchSize toProcess
    Except.ok (batches.foldl
      (fun st batch =>
        countBatch (batch.map (fun u => (processSingleArticle env u).1)) st)
      stats0)

/-- One row of the `publications` table, with the columns named in the
insert of `PMCBatchProcessor._store_in_postgres` (batch_processor.py:353-364).
JSON-serialized list columns are modelled by the lists themselves; the two
timestamps are abstract instants. -/
structure PubRow where
  pmc_id : String
  pmid : Option String
  doi : Option String
  title : Option String
  abstract : Option String
  journal : Option String
  publication_date : Option String
  authors : List (Option String × Option String)
  keywords : List String
  hypothesis : Option String
  key_findings : List String
  organisms_studied : List String
  space_conditions : List (String × String)
  full_text : String
  created_at : Nat
  updated_at : Option Nat
deriving DecidableEq

/-- Model of `PMCBatchProcessor._store_in_postgres` (batch_processor.py:351-383):
`INSERT ... ON CONFLICT (pmc_id) DO UPDATE SET updated_at = NOW(),
title = EXCLUDED.title, abstract = EXCLUDED.abstract,
full_text = EXCLUDED.full_text`.  The table is a row list with `pmc_id`
as the conflict key; `now` is the current instant. -/
def storeInPostgres (now : Nat) (table : List PubRow) (pmcId : String)
    (art : ArticleData) (enr : Enriched) : List PubRow :=
  if table.any (fun r => r.pmc_id = pmcId) then
    table.map (fun r =>
      if r.pmc_id = pmcId then
        { r with
          title := art.metadata.title
          abstract := art.metadata.abstract
          full_text := art.fullText
          updated_at := some now }
      else r)
  else
    table ++ [{ pmc_id := pmcId
                pmid := art.metadata.pmid
                doi := art.metadata.doi
                title := art.metadata.title
                abstract := art.metadata.abstract
                journal := art.metadata.journal
                publication_date := art.metadata.publication_date
                authors := art.metadata.authors
                keywords := art.metadata.keywords
                hypothesis := some enr.hypothesis
                key_findings := enr.key_findings
                organisms_studied := enr.organisms
                space_conditions := enr.space_conditions
                full_text := art.fullText
                created_at := now
                updated_at := none }]

/-- Sample non-default enrichment output, used to observe which value a
run of the enrichment stage returns. -/
def sampleEnriched : Enriched :=
  { hypothesis := "Microgravity alters gene expression"
    organisms := ["Mus musculus"]
    space_conditions := [("gravity", "micro")]
    key_findings := ["finding one"]
    implications := "Countermeasures needed"
    knowledge_gaps := ["long-term effects"]
    entities := [("TP53", "gene")] }

/-- Sample parsed article with one non-empty section, standing for an
otherwise-valid document. -/
def sampleArticle : ArticleData :=
  { metadata := { title := some "A title", abstract := some "An abstract" }
    sections := [("introduction", "Some introduction text")]
    fullText := "ABSTRACT\nAn abstract\n\nINTRODUCTION\nSome introduction text" }

/-- Environment in which the model call always fails but fetching and
embedding work, against the article `sampleArticle`. -/
def modelDownEnv : Env :=
  { fetch := fun _ => Except.ok sampleArticle
    call := fun _ => Except.error "model down"
    parseJson := fun _ => none
    encode := fun _ => Except.ok [[0]]
    completed := [] }

/-- Environment whose remote fetch always fails and whose status store
already holds `PMC2` as completed, used to exercise a mixed-outcome
run. -/
def c2Env : Env :=
  { fetch := fun _ => Except.error "connection refused"
    call := fun _ => Except.error "unreachable"
    parseJson := fun _ => none
    encode := fun _ => Except.error "unreachable"
    completed := ["PMC2"] }

/-- Sample pre-existing `publications` row for the upsert frame
property. -/
def c8Row : PubRow :=
  { pmc_id := "PMC1"
    pmid := some "123"
    doi := some "10.1000/x"
    title := some "Old title"
    abstract := some "Old abstract"
    journal := some "Old journal"
    publication_date := some "2024-01-01"
    authors := [(some "Ada", some "Lovelace")]
    keywords := ["space"]
    hypothesis := some "Original hypothesis"
    key_findings := ["original finding"]
    organisms_studied := ["mouse"]
    space_conditions := [("gravity", "micro")]
    full_text := "old full text"
    created_at := 1
    updated_at := none }

/-- Sample fetched article whose only section text is whitespace. -/
def c9Art : ArticleData :=
  { metadata := {}
    sections := [("introduction", "   ")]
    fullText := "" }

/-- Environment whose fetch returns the whitespace-sections article
`c9Art` for the canonical identifier. -/
def c9Env : Env :=
  { fetch := fun pid => if pid = "PMC11930778" then Except.ok c9Art else Except.error "not found"
    call := fun _ => Except.error "unused"
    parseJson := fun _ => none
    encode := fun _ => Except.error "unused"
    completed := [] }

/-- C5: Section-title normalization is a pure function of the heading text
(it is a Lean function of `title` alone, so determinism is inherent), and
it agrees everywhere with the specification's rule table `claimNormalize`:
the substring rules are tried with precedence in the listed order —
`introduction`/`background` to `introduction`, else `method`/`material`
to `methods`, else `result` to `results`, else `discussion` to
`discussion`, else `conclusion` to `conclusion` — and any other title maps
to its lowercased form with spaces replaced by underscores. -/
theorem normalize_section_title_matches_claim :
    ∀ title : String, normalizeSectionTitle title = claimNormalize title := by
  intro t
  simp only [normalizeSectionTitle, claimNormalize, canonicalRules]
  cases h1 : containsSub (strLower t) "introduction" <;>
    cases h2 : containsSub (strLower t) "background" <;>
      cases h3 : containsSub (strLower t) "method" <;>
        cases h4 : containsSub (strLower t) "material" <;>
          cases h5 : containsSub (strLower t) "result" <;>
            cases h6 : containsSub (strLower t) "discussion" <;>
              cases h7 : containsSub (strLower t) "conclusion" <;>
                simp [List.find?, h1, h2, h3, h4, h5, h6, h7]

/-- C10: a body section whose first nested title element has no direct
text — no title element at all, or a title whose text is entirely wrapped
in child markup (and likewise the degenerate empty-string direct text,
which Python's truthiness test also rejects) — contributes no entry to the
parsed sections mapping: parsing with the section present equals parsing
with it removed. -/
theorem parse_body_sections_drops_untitled :
    ∀ (pre post : List Sec) (s : Sec),
      s.titleText = none ∨ s.titleText = some "" →
      parseBodySections (pre ++ s :: post) = parseBodySections (pre ++ post) := by
  intro pre post s h
  unfold parseBodySections
  rw [List.foldl_append, List.foldl_append, List.foldl_cons]
  rcases h with h | h <;> simp [secKey, h]

/-- Witness for C10 at a concrete input: a titleless section between two
titled ones is silently omitted. -/
theorem parse_body_sections_drops_untitled_witness :
    ((⟨none, "orphan text"⟩ : Sec).titleText = none ∨
      (⟨none, "orphan text"⟩ : Sec).titleText = some "") ∧
    parseBodySections [⟨some "Intro", "a"⟩, ⟨none, "orphan text"⟩, ⟨some "Results", "b"⟩] =
      parseBodySections [⟨some "Intro", "a"⟩, ⟨some "Results", "b"⟩] :=
  ⟨Or.inl rfl,
   parse_body_sections_drops_untitled [⟨some "Intro", "a"⟩] [⟨some "Results", "b"⟩]
     ⟨none, "orphan text"⟩ (Or.inl rfl)⟩

/-- C3 counterexample: the claim that the model call is retried up to 3
times before the default fallback is false.  With a model call that fails
on the first attempt and would succeed (with valid JSON) on the second,
the deployed function already returns the default structure — the
`@retry` decorator never re-runs the call because every exception is
caught inside the function body — whereas the retried contract
`claimRetriedExtract` would return the parsed value. -/
theorem extract_structured_info_retry_cex :
    extractStructuredInfo
        (fun i => if i = 0 then Except.error "rate limited" else Except.ok "response")
        (fun s => if s = "response" then some sampleEnriched else none)
      = defaultEnrichedData ∧
    claimRetriedExtract
        (fun i => if i = 0 then Except.error "rate limited" else Except.ok "response")
        (fun s => if s = "response" then some sampleEnriched else none)
      = sampleEnriched ∧
    sampleEnriched ≠ defaultEnrichedData :=
  ⟨rfl, rfl, by decide⟩

/-- C3 (amended): whenever the model call fails or its response is not
valid JSON, `extract_structured_info` returns exactly the default
`EnrichedFacts` structure and never raises, so an otherwise-valid document
still reaches `completed` status; however the fallback is taken on the
first failure — the deployed function always behaves as the single-attempt
body, the retry wrapper never re-invoking the call, because all exceptions
are handled inside the function body.  The last two conjuncts run the
per-article pipeline in `modelDownEnv` (model call always failing) and
observe a success result whose relational write stores the default
structure. -/
theorem extract_structured_info_fallback :
    ∀ (call : Nat → Except String String) (parse : String → Option Enriched),
      (extractStructuredInfo call parse = extractStructuredInfoBody (call 0) parse) ∧
      (∀ e, call 0 = Except.error e →
        extractStructuredInfo call parse = defaultEnrichedData) ∧
      (∀ txt, call 0 = Except.ok txt → parse (stripFences txt) = none →
        extractStructuredInfo call parse = defaultEnrichedData) ∧
      (processSingleArticle modelDownEnv "https://pmc.ncbi.nlm.nih.gov/articles/PMC11930778/").1
        = Except.ok { pmcId := "PMC11930778", status := SingleStatus.success } ∧
      (processSingleArticle modelDownEnv "https://pmc.ncbi.nlm.nih.gov/articles/PMC11930778/").2.getLast?
        = some (Effect.statusUpdate "PMC11930778" "completed") ∧
      (processSingleArticle modelDownEnv "https://pmc.ncbi.nlm.nih.gov/articles/PMC11930778/").2.contains
          (Effect.pgWrite "PMC11930778" defaultEnrichedData) = true := by
  intro call parse
  refine ⟨rfl, ?_, ?_, rfl, rfl, by rfl⟩
  · intro e h
    simp [extractStructuredInfo, retry3, extractStructuredInfoBody, h]
  · intro txt h1 h2
    simp [extractStructuredInfo, retry3, extractStructuredInfoBody, h1, h2]

/-- Witness for C3 (amended) at a concrete input: a model call that fails
on every attempt makes the enrichment stage return the default
structure. -/
theorem extract_structured_info_fallback_witness :
    ((fun _ : Nat => (Except.error "boom" : Except String String)) 0
        = Except.error "boom") ∧
    extractStructuredInfo (fun _ => Except.error "boom") (fun _ => none)
      = defaultEnrichedData :=
  ⟨rfl,
   (extract_structured_info_fallback (fun _ => Except.error "boom") (fun _ => none)).2.1
     "boom" rfl⟩

/-- C4: the zero-vector fallback of `generate_embeddings` does not use
the embedding model's dimensionality.  With an embedding model whose
`encode` raises on the input batch and whose probe `encode(["test"])`
returns one 384-dimensional vector, the function returns one zero-vector
of length 1 (`len` of the probe's outer result list, i.e. the probe batch
size), not of length 384; and when the probe itself raises, the exception
escapes to the caller instead of the documented 384 default applying. -/
theorem generate_embeddings_dimension_bug :
    generateEmbeddings
        (fun ts => if ts = ["test"] then Except.ok [List.replicate 384 (1 : Rat)]
                   else Except.error "model failure")
        ["text"]
      = Except.ok [[(0 : Rat)]] ∧
    [[(0 : Rat)]] ≠ [List.replicate 384 (0 : Rat)] ∧
    generateEmbeddings
        (fun _ => (Except.error "model failure" : Except String (List (List Rat))))
        ["text"]
      = Except.error "model failure" := by
  refine ⟨rfl, ?_, rfl⟩
  intro h
  have hlen := congrArg (fun l => (l.headD []).length) h
  simp only [List.headD_cons, List.length_cons, List.length_nil,
    List.length_replicate] at hlen
  omega

/-- Accumulator form of the canonical-section loop of
`_extract_full_text`. -/
theorem foldl_lookup_parts (sections : List (String × String)) :
    ∀ (names : List String) (acc : List String),
      names.foldl
        (fun acc name =>
          match sections.lookup name with
          | some t => acc ++ [strUpper name ++ "\n" ++ t]
          | none => acc)
        acc
      = acc ++ names.filterMap
          (fun name => (sections.lookup name).map (fun t => strUpper name ++ "\n" ++ t)) := by
  intro names
  induction names with
  | nil => intro acc; simp
  | cons n ns ih =>
    intro acc
    rw [List.foldl_cons, List.filterMap_cons]
    cases h : sections.lookup n with
    | none => simp [h, ih]
    | some t => simp [h, ih]

/-- Accumulator form of the remaining-sections loop of
`_extract_full_text`. -/
theorem foldl_other_parts :
    ∀ (sections : List (String × String)) (acc : List String),
      sections.foldl
        (fun acc kv =>
          if sectionOrder.contains kv.1 then acc
          else acc ++ [strUpper kv.1 ++ "\n" ++ kv.2])
        acc
      = acc ++ (sections.filter (fun kv => !sectionOrder.contains kv.1)).map
          (fun kv => strUpper kv.1 ++ "\n" ++ kv.2) := by
  intro sections
  induction sections with
  | nil => intro acc; simp
  | cons kv rest ih =>
    intro acc
    rw [List.foldl_cons]
    cases h : sectionOrder.contains kv.1 with
    | true =>
      have hstep : (if true = true then acc else acc ++ [strUpper kv.1 ++ "\n" ++ kv.2])
          = acc := by simp
      rw [hstep, ih]
      have hf : List.filter (fun kv => !sectionOrder.contains kv.1) (kv :: rest)
          = List.filter (fun kv => !sectionOrder.contains kv.1) rest := by
        rw [List.filter_cons]
        simp only [Bool.not_eq_true']
        simp
        simpa using h
      rw [hf]
    | false =>
      have hstep : (if false = true then acc else acc ++ [strUpper kv.1 ++ "\n" ++ kv.2])
          = acc ++ [strUpper kv.1 ++ "\n" ++ kv.2] := by simp
      rw [hstep, ih]
      have hf : List.filter (fun kv => !sectionOrder.contains kv.1) (kv :: rest)
          = kv :: List.filter (fun kv => !sectionOrder.contains kv.1) rest := by
        rw [List.filter_cons]
        simp
        simpa using h
      rw [hf, List.map_cons]
      simp [List.append_assoc]

/-- C1: for every parsed article, the derived `full_text` equals the
deterministic concatenation rule of the specification (`claimFullText`):
the abstract when non-empty under the header `ABSTRACT`, then the
canonical sections present in the mapping in the fixed order, then every
remaining section in encounter order, each part under its upper-cased key
and joined by blank lines; and deriving it twice from the same parsed
article yields identical output (the derivation is a pure function). -/
theorem full_text_matches_claim :
    ∀ (abstract : String) (sections : List (String × String)),
      extractFullText abstract sections = claimFullText abstract sections ∧
      extractFullText abstract sections = extractFullText abstract sections := by
  intro ab secs
  refine ⟨?_, rfl⟩
  simp only [extractFullText, claimFullText]
  rw [foldl_lookup_parts, foldl_other_parts]
  by_cases hab : ab = "" <;> simp [hab, List.append_assoc]

/-- Lookup after a dictionary assignment: the assigned key now holds the
combined text, every other key is untouched. -/
theorem insertSection_lookup (k t key : String) :
    ∀ acc : List (String × String),
      (insertSection acc k t).lookup key =
        if key = k then
          some (match acc.lookup key with
                | none => t
                | some old => old ++ "\n\n" ++ t)
        else acc.lookup key := by
  intro acc
  induction acc with
  | nil =>
    by_cases h : key = k
    · subst h; simp [insertSection, List.lookup]
    · have hb : (key == k) = false := by simp [h]
      simp [insertSection, List.lookup, hb, h]
  | cons kv rest ih =>
    obtain ⟨k', t'⟩ := kv
    by_cases h1 : k' = k
    · subst h1
      by_cases h2 : key = k'
      · subst h2; simp [insertSection, List.lookup]
      · have hb : (key == k') = false := by simp [h2]
        simp [insertSection, List.lookup, hb, h2]
    · by_cases h3 : key = k'
      · subst h3
        simp [insertSection, List.lookup, h1]
      · have hbk : (key == k') = false := by simp [h3]
        simp only [insertSection, if_neg h1, List.lookup, hbk]
        rw [ih]

/-- Key list after a dictionary assignment: unchanged when the key was
present, extended by the key at the end otherwise. -/
theorem insertSection_keys (k t : String) :
    ∀ acc : List (String × String),
      (insertSection acc k t).map Prod.fst =
        if (acc.map Prod.fst).contains k then acc.map Prod.fst
        else acc.map Prod.fst ++ [k] := by
  intro acc
  induction acc with
  | nil => simp [insertSection]
  | cons kv rest ih =>
    obtain ⟨k', t'⟩ := kv
    by_cases h : k' = k
    · subst h; simp [insertSection]
    · have hb : (k == k') = false := beq_eq_false_iff_ne.mpr (fun hc => h hc.symm)
      simp only [insertSection, if_neg h, List.map_cons, List.contains_cons, hb,
        Bool.false_or]
      rw [ih]
      by_cases hc : ((rest.map Prod.fst).contains k) = true
      · rw [if_pos hc, if_pos hc]
      · rw [if_neg hc, if_neg hc]
        simp [List.cons_append]

/-- The section-parsing fold keeps the key list duplicate-free. -/
theorem parse_fold_keys_nodup :
    ∀ (secs : List Sec) (acc : List (String × String)),
      ((acc.map Prod.fst)).Nodup →
      (((secs.foldl
          (fun acc s =>
            match secKey s with
            | none => acc
            | some k => insertSection acc k s.text)
          acc)).map Prod.fst).Nodup := by
  intro secs
  induction secs with
  | nil => intro acc h; simpa using h
  | cons s rest ih =>
    intro acc h
    rw [List.foldl_cons]
    cases hk : secKey s with
    | none => exact ih acc h
    | some k =>
      apply ih
      rw [insertSection_keys]
      by_cases hc : ((acc.map Prod.fst).contains k) = true
      · rw [if_pos hc]; exact h
      · have hk' : k ∉ acc.map Prod.fst := by simpa using hc
        rw [if_neg hc]
        simp [List.nodup_append, h, hk']

/-- The section-parsing fold, observed through lookup at one key: the
result is the blank-line join of the texts contributed to that key, folded
onto whatever the accumulator already held there. -/
theorem parse_fold_lookup (key : String) :
    ∀ (secs : List Sec) (acc : List (String × String)),
      ((secs.foldl
          (fun acc s =>
            match secKey s with
            | none => acc
            | some k => insertSection acc k s.text)
          acc)).lookup key
      = (keyTexts key secs).foldl
          (fun a t => some (match a with | none => t | some s => s ++ "\n\n" ++ t))
          (acc.lookup key) := by
  intro secs
  induction secs with
  | nil => intro acc; rfl
  | cons s rest ih =>
    intro acc
    rw [List.foldl_cons]
    cases hk : secKey s with
    | none => simp [keyTexts, List.filterMap_cons, hk, ih]
    | some k =>
      by_cases hkey : k = key
      · have htexts : keyTexts key (s :: rest) = s.text :: keyTexts key rest := by
          simp [keyTexts, List.filterMap_cons, hk, hkey]
        rw [htexts, ih, List.foldl_cons, insertSection_lookup]
        simp [hkey.symm]
      · have htexts : keyTexts key (s :: rest) = keyTexts key rest := by
          simp [keyTexts, List.filterMap_cons, hk, hkey]
        rw [htexts, ih, insertSection_lookup]
        rw [if_neg (fun hc : key = k => hkey hc.symm)]

/-- Folding the blank-line join over a list from a present starting
value. -/
theorem joinFold_some (ts : List String) :
    ∀ s : String,
      ts.foldl
        (fun a t => some (match a with | none => t | some s => s ++ "\n\n" ++ t))
        (some s)
      = some (ts.foldl (fun a b => a ++ "\n\n" ++ b) s) := by
  induction ts with
  | nil => intro s; rfl
  | cons t rest ih => intro s; simp [List.foldl_cons, ih]

/-- C6: in the parsed sections mapping, every key has a single entry (the
key list is duplicate-free), and the entry for any key is the blank-line
separated concatenation, in encounter order, of the texts of all source
sections whose titles normalize to that key (absent exactly when no
section contributes to the key). -/
theorem parse_body_sections_merges_duplicate_keys :
    ∀ (secs : List Sec) (key : String),
      ((parseBodySections secs).map Prod.fst).Nodup ∧
      (parseBodySections secs).lookup key
        = (match keyTexts key secs with
           | [] => none
           | t :: ts => some (strIntercalate "\n\n" (t :: ts))) := by
  intro secs key
  constructor
  · exact parse_fold_keys_nodup secs [] (by simp)
  · rw [parseBodySections, parse_fold_lookup]
    cases keyTexts key secs with
    | nil => rfl
    | cons t ts =>
      rw [List.foldl_cons]
      exact joinFold_some ts t

/-- Scanning a list in which the pattern matches at no position yields no
match. -/
theorem pmcScan_eq_none :
    ∀ l : List Char, (∀ i, pmcMatchHead (l.drop i) = false) → pmcScan l = none := by
  intro l
  induction l with
  | nil => intro _; rfl
  | cons c cs ih =>
    intro h
    have h0 : pmcMatchHead (c :: cs) = false := by simpa using h 0
    have hstep : pmcScan (c :: cs)
        = if pmcMatchHead (c :: cs) then
            some (((c :: cs).drop 3).takeWhile Char.isDigit)
          else pmcScan cs := rfl
    rw [hstep, if_neg (by simp [h0])]
    exact ih (fun i => by simpa using h (i + 1))

/-- Scanning a list whose first pattern match is at position `i` yields
the maximal digit run that starts right after the `PMC` at position
`i`. -/
theorem pmcScan_first_match :
    ∀ (l : List Char) (i : Nat),
      pmcMatchHead (l.drop i) = true →
      (∀ j, j < i → pmcMatchHead (l.drop j) = false) →
      pmcScan l = some ((l.drop (i + 3)).takeWhile Char.isDigit) := by
  intro l
  induction l with
  | nil =>
    intro i hi _
    rw [List.drop_nil] at hi
    simp [pmcMatchHead] at hi
  | cons c cs ih =>
    intro i hi hmin
    have hstep : pmcScan (c :: cs)
        = if pmcMatchHead (c :: cs) then
            some (((c :: cs).drop 3).takeWhile Char.isDigit)
          else pmcScan cs := rfl
    cases i with
    | zero =>
      rw [List.drop_zero] at hi
      rw [hstep, if_pos hi]
    | succ i' =>
      have h0 : pmcMatchHead (c :: cs) = false := by simpa using hmin 0 (Nat.succ_pos _)
      rw [hstep, if_neg (by simp [h0])]
      have hi' : pmcMatchHead (cs.drop i') = true := by simpa using hi
      have hmin' : ∀ j, j < i' → pmcMatchHead (cs.drop j) = false := by
        intro j hj
        simpa using hmin (j + 1) (Nat.succ_lt_succ hj)
      rw [ih i' hi' hmin']
      have hdrop : List.drop (i' + 1 + 3) (c :: cs) = List.drop (i' + 3) cs := by
        rw [show i' + 1 + 3 = (i' + 3) + 1 from by omega]
        rfl
      rw [hdrop]

/-- C7: for every input containing `PMC` followed by at least one digit,
identifier extraction returns exactly `PMC` followed by the digit run of
the first such occurrence (position `i` below, with every earlier position
failing to match), both in `helpers.extract_pmc_id` and in the batch
processor's `_extract_pmc_id`; for inputs with no such occurrence,
`extract_pmc_id` returns `none` and the batch processor raises
`ValueError` instead of silently dropping the entry. -/
theorem extract_pmc_id_first_match :
    ∀ url : String,
      ((∀ i, pmcMatchHead (url.toList.drop i) = false) →
        extract_pmc_id url = none ∧
        batchExtractPmcId url = Except.error ("Invalid PMC URL: " ++ url)) ∧
      (∀ i, pmcMatchHead (url.toList.drop i) = true →
        (∀ j, j < i → pmcMatchHead (url.toList.drop j) = false) →
        extract_pmc_id url
          = some ("PMC" ++ String.mk ((url.toList.drop (i + 3)).takeWhile Char.isDigit)) ∧
        batchExtractPmcId url
          = Except.ok ("PMC" ++ String.mk ((url.toList.drop (i + 3)).takeWhile Char.isDigit))) := by
  intro url
  constructor
  · intro h
    have hs := pmcScan_eq_none url.toList h
    simp only [String.toList] at hs
    constructor
    · simp [extract_pmc_id, String.toList, hs]
    · simp [batchExtractPmcId, extract_pmc_id, String.toList, hs]
  · intro i hi hmin
    have hs := pmcScan_first_match url.toList i hi hmin
    simp only [String.toList] at hs
    constructor
    · simp [extract_pmc_id, String.toList, hs]
    · simp [batchExtractPmcId, extract_pmc_id, String.toList, hs]

/-- Witness for C7 at a concrete input: in the canonical article URL the
first match is at position 38, and extraction returns `PMC11930778`. -/
theorem extract_pmc_id_first_match_witness :
    extract_pmc_id "https://pmc.ncbi.nlm.nih.gov/articles/PMC11930778/"
      = some ("PMC" ++ String.mk
          ((("https://pmc.ncbi.nlm.nih.gov/articles/PMC11930778/").toList.drop
            (38 + 3)).takeWhile Char.isDigit)) ∧
    extract_pmc_id "https://pmc.ncbi.nlm.nih.gov/articles/PMC11930778/"
      = some "PMC11930778" :=
  ⟨((extract_pmc_id_first_match "https://pmc.ncbi.nlm.nih.gov/articles/PMC11930778/").2
      38 (by decide) (by decide)).1,
   by decide⟩

/-- The already-completed filter accounts for every supplied URL: kept
URLs plus skipped ones add up to the input length. -/
theorem filterUrls_length :
    ∀ (completed urls : List String) (tp : List String) (sk : Nat),
      filterUrls completed urls = Except.ok (tp, sk) →
      tp.length + sk = urls.length := by
  intro completed urls
  induction urls with
  | nil =>
    intro tp sk h
    simp [filterUrls] at h
    obtain ⟨h1, h2⟩ := h
    simp [← h1, ← h2]
  | cons u us ih =>
    intro tp sk h
    rw [filterUrls] at h
    cases hb : batchExtractPmcId u with
    | error e => rw [hb] at h; exact absurd h (by simp)
    | ok id =>
      rw [hb] at h
      cases hr : filterUrls completed us with
      | error e => rw [hr] at h; exact absurd h (by simp)
      | ok pair =>
        obtain ⟨rest, sk'⟩ := pair
        rw [hr] at h
        dsimp only at h
        have hrest := ih rest sk' hr
        by_cases hc : completed.contains id = true
        · rw [if_pos hc] at h
          simp only [Except.ok.injEq, Prod.mk.injEq] at h
          obtain ⟨h1, h2⟩ := h
          subst h1; subst h2
          simp only [List.length_cons]
          omega
        · rw [if_neg hc] at h
          simp only [Except.ok.injEq, Prod.mk.injEq] at h
          obtain ⟨h1, h2⟩ := h
          subst h1; subst h2
          simp only [List.length_cons]
          omega

/-- The per-result counting loop adds exactly one to exactly one counter
per result and never touches `total`. -/
theorem countBatch_counts :
    ∀ (rs : List (Except String SingleResult)) (st : Stats),
      (countBatch rs st).success + (countBatch rs st).errors + (countBatch rs st).skipped
        = st.success + st.errors + st.skipped + rs.length ∧
      (countBatch rs st).total = st.total := by
  intro rs
  induction rs with
  | nil => intro st; simp [countBatch]
  | cons r rest ih =>
    intro st
    cases r with
    | error e =>
      have hstep : countBatch (Except.error e :: rest) st
          = countBatch rest { st with errors := st.errors + 1 } := rfl
      rw [hstep]
      have h := ih { st with errors := st.errors + 1 }
      refine ⟨?_, h.2⟩
      rw [h.1]
      simp only [List.length_cons]
      omega
    | ok res =>
      obtain ⟨pid, status⟩ := res
      cases status with
      | success =>
        have hstep : countBatch (Except.ok ⟨pid, SingleStatus.success⟩ :: rest) st
            = countBatch rest { st with success := st.success + 1 } := rfl
        rw [hstep]
        have h := ih { st with success := st.success + 1 }
        refine ⟨?_, h.2⟩
        rw [h.1]
        simp only [List.length_cons]
        omega
      | skipped =>
        have hstep : countBatch (Except.ok ⟨pid, SingleStatus.skipped⟩ :: rest) st
            = countBatch rest { st with skipped := st.skipped + 1 } := rfl
        rw [hstep]
        have h := ih { st with skipped := st.skipped + 1 }
        refine ⟨?_, h.2⟩
        rw [h.1]
        simp only [List.length_cons]
        omega

/-- Concatenating the batch partition gives back the partitioned list
(for any fuel bounding its length). -/
theorem chunksOfAux_join {α : Type} (n : Nat) :
    ∀ (fuel : Nat) (l : List α), l.length ≤ fuel → (chunksOfAux n fuel l).flatten = l := by
  intro fuel
  induction fuel with
  | zero =>
    intro l hl
    have : l = [] := List.eq_nil_of_length_eq_zero (Nat.le_zero.mp hl)
    subst this
    rfl
  | succ m ih =>
    intro l hl
    cases l with
    | nil => rfl
    | cons x xs =>
      have hstep : chunksOfAux n (m + 1) (x :: xs)
          = (x :: xs.take (n - 1)) :: chunksOfAux n m (xs.drop (n - 1)) := rfl
      rw [hstep, List.flatten_cons]
      rw [ih (xs.drop (n - 1)) (by simp at hl ⊢; omega)]
      rw [List.cons_append, List.take_append_drop]

/-- Concatenating the batch partition gives back the partitioned list. -/
theorem chunksOf_join {α : Type} (n : Nat) (l : List α) : (chunksOf n l).flatten = l :=
  chunksOfAux_join n l.length l (Nat.le_refl _)

/-- Folding the counting loop over all batches adds the total number of
partitioned items to the counters and never touches `total`. -/
theorem foldl_countBatch_sum (f : String → Except String SingleResult) :
    ∀ (batches : List (List String)) (st : Stats),
      ((batches.foldl (fun st b => countBatch (b.map f) st) st).success
        + (batches.foldl (fun st b => countBatch (b.map f) st) st).errors
        + (batches.foldl (fun st b => countBatch (b.map f) st) st).skipped
        = st.success + st.errors + st.skipped + batches.flatten.length) ∧
      (batches.foldl (fun st b => countBatch (b.map f) st) st).total = st.total := by
  intro batches
  induction batches with
  | nil => intro st; simp
  | cons b bs ih =>
    intro st
    simp only [List.foldl_cons, List.flatten_cons, List.length_append]
    have hc := countBatch_counts (b.map f) st
    have hb : (b.map f).length = b.length := List.length_map _ _
    have hi := ih (countBatch (b.map f) st)
    refine ⟨?_, by rw [hi.2, hc.2]⟩
    have h1 := hi.1
    have h2 := hc.1
    omega

/-- C2: for every run of the batch scheduler (any environment, any URL
list, any positive batch size), if `process_all_articles` returns run
statistics, then `success + errors + skipped = total` and `total` is the
number of supplied identifiers — regardless of the mixture of
per-identifier outcomes (success, exception, skipped-no-sections, or
skipped-already-completed). -/
theorem process_all_articles_stats_invariant :
    ∀ (env : Env) (urls : List String) (batchSize : Nat) (stats : Stats),
      0 < batchSize →
      processAllArticles env urls batchSize = Except.ok stats →
      stats.success + stats.errors + stats.skipped = stats.total ∧
      stats.total = urls.length := by
  intro env urls bs stats _hbs h
  simp only [processAllArticles] at h
  cases hf : filterUrls env.completed urls with
  | error e => rw [hf] at h; exact absurd h (by simp)
  | ok pair =>
    obtain ⟨tp, sk⟩ := pair
    rw [hf] at h
    simp only [Except.ok.injEq] at h
    have hsum := foldl_countBatch_sum (fun u => (processSingleArticle env u).1)
      (chunksOf bs tp) ⟨urls.length, 0, 0, sk⟩
    rw [h] at hsum
    have hlen := filterUrls_length env.completed urls tp sk hf
    have hj := congrArg List.length (chunksOf_join bs tp)
    simp only at hsum
    constructor
    · rw [hsum.1, hsum.2]
      omega
    · rw [hsum.2]

/-- Witness for C2 at a concrete run: two URLs, one already completed
(skipped) and one whose fetch fails (error), give statistics
`{total := 2, success := 0, errors := 1, skipped := 1}` satisfying the
invariant. -/
theorem process_all_articles_stats_invariant_witness :
    0 < 10 ∧
    processAllArticles c2Env ["https://a.example/PMC1/", "https://b.example/PMC2/"] 10
      = Except.ok ⟨2, 0, 1, 1⟩ ∧
    ((⟨2, 0, 1, 1⟩ : Stats).success + (⟨2, 0, 1, 1⟩ : Stats).errors
        + (⟨2, 0, 1, 1⟩ : Stats).skipped = (⟨2, 0, 1, 1⟩ : Stats).total ∧
      (⟨2, 0, 1, 1⟩ : Stats).total
        = (["https://a.example/PMC1/", "https://b.example/PMC2/"] : List String).length) := by
  have hrun : processAllArticles c2Env ["https://a.example/PMC1/", "https://b.example/PMC2/"] 10
      = Except.ok ⟨2, 0, 1, 1⟩ := rfl
  exact ⟨Nat.succ_pos 9, hrun,
    process_all_articles_stats_invariant c2Env
      ["https://a.example/PMC1/", "https://b.example/PMC2/"] 10 ⟨2, 0, 1, 1⟩
      (Nat.succ_pos 9) hrun⟩

/-- C8: the relational write is an upsert keyed by the identifier.  When a
row with the same identifier already exists, the write keeps the table
length and rewrites each row through a function that changes only the
title, abstract, full-text and updated-at columns of the matching row —
every other column of that row (the enrichment-derived `hypothesis`,
`key_findings`, `organisms_studied`, `space_conditions` and all remaining
metadata columns) is carried over unchanged, and non-matching rows are
untouched. -/
theorem store_in_postgres_upsert_frame :
    ∀ (now : Nat) (table : List PubRow) (pmcId : String) (art : ArticleData) (enr : Enriched),
      table.any (fun r => r.pmc_id = pmcId) = true →
      (storeInPostgres now table pmcId art enr).length = table.length ∧
      ∀ i : Nat,
        (storeInPostgres now table pmcId art enr).get? i
          = (table.get? i).map (fun r =>
              if r.pmc_id = pmcId then
                { r with
                  title := art.metadata.title
                  abstract := art.metadata.abstract
                  full_text := art.fullText
                  updated_at := some now }
              else r) := by
  intro now table pmcId art enr hany
  have hstore : storeInPostgres now table pmcId art enr
      = table.map (fun r =>
          if r.pmc_id = pmcId then
            { r with
              title := art.metadata.title
              abstract := art.metadata.abstract
              full_text := art.fullText
              updated_at := some now }
          else r) := by
    unfold storeInPostgres
    rw [if_pos hany]
  constructor
  · rw [hstore, List.length_map]
  · intro i
    rw [hstore, List.get?_map]

/-- Witness for C8 at a concrete table: upserting over an existing
`PMC1` row updates title/abstract/full-text/timestamp and leaves the
enrichment columns of the stored row intact. -/
theorem store_in_postgres_upsert_frame_witness :
    ([c8Row].any (fun r => r.pmc_id = "PMC1") = true) ∧
    (storeInPostgres 42 [c8Row] "PMC1" sampleArticle sampleEnriched).length = [c8Row].length ∧
    (storeInPostgres 42 [c8Row] "PMC1" sampleArticle sampleEnriched).get? 0
      = ([c8Row].get? 0).map (fun r =>
          if r.pmc_id = "PMC1" then
            { r with
              title := sampleArticle.metadata.title
              abstract := sampleArticle.metadata.abstract
              full_text := sampleArticle.fullText
              updated_at := some 42 }
          else r) ∧
    (storeInPostgres 42 [c8Row] "PMC1" sampleArticle sampleEnriched).get? 0
      = some { c8Row with
          title := some "A title"
          abstract := some "An abstract"
          full_text := "ABSTRACT\nAn abstract\n\nINTRODUCTION\nSome introduction text"
          updated_at := some 42 } := by
  have h := store_in_postgres_upsert_frame 42 [c8Row] "PMC1" sampleArticle sampleEnriched
    (by decide)
  exact ⟨by decide, h.1, h.2 0, by decide⟩

/-- C9: a fetched article whose sections are all whitespace-only (or
absent) is recorded as `skipped_no_sections` and returned as a skipped
result, with an effect trace containing only the two status updates — no
model call, no embedding call, no sink write — and a one-element run over
such a document ends with statistics
`{total := 1, success := 0, errors := 0, skipped := 1}`. -/
theorem process_single_article_skips_empty :
    ∀ (env : Env) (url pmcId : String) (art : ArticleData),
      batchExtractPmcId url = Except.ok pmcId →
      env.fetch pmcId = Except.ok art →
      art.sections.all (fun kv => strTrim kv.2 = "") = true →
      env.completed.contains pmcId = false →
      processSingleArticle env url
        = (Except.ok { pmcId := pmcId, status := SingleStatus.skipped },
           [Effect.statusUpdate pmcId "processing",
            Effect.statusUpdate pmcId "skipped_no_sections"]) ∧
      processAllArticles env [url] 10 = Except.ok ⟨1, 0, 0, 1⟩ := by
  intro env url pmcId art hx hf hall hc
  have havail : sectionsAvailable art = false := by
    have hany : art.sections.any (fun kv => strTrim kv.2 ≠ "") = false := by
      rw [List.any_eq_false]
      intro kv hkv
      simp only [List.all_eq_true] at hall
      have h1 := hall kv hkv
      simp at h1 ⊢
      exact h1
    have hdef : sectionsAvailable art
        = (!art.sections.isEmpty && art.sections.any (fun kv => strTrim kv.2 ≠ "")) := rfl
    rw [hdef, hany, Bool.and_false]
  have hsingle : processSingleArticle env url
      = (Except.ok { pmcId := pmcId, status := SingleStatus.skipped },
         [Effect.statusUpdate pmcId "processing",
          Effect.statusUpdate pmcId "skipped_no_sections"]) := by
    simp only [processSingleArticle]
    rw [hx]
    dsimp only
    rw [hf]
    dsimp only
    rw [havail]
    simp
  refine ⟨hsingle, ?_⟩
  have hres : (processSingleArticle env url).1
      = Except.ok { pmcId := pmcId, status := SingleStatus.skipped } := by
    rw [hsingle]
  simp only [processAllArticles, filterUrls]
  rw [hx]
  dsimp only
  rw [hc]
  simp [chunksOf, chunksOfAux, countBatch, hres]

/-- Witness for C9 at the concrete scenario of the specification: one
identifier URL, a fetched document with a single whitespace-only section,
final statistics `{total := 1, success := 0, errors := 0, skipped := 1}`. -/
theorem process_single_article_skips_empty_witness :
    batchExtractPmcId "https://source.example/articles/PMC11930778/"
      = Except.ok "PMC11930778" ∧
    c9Env.fetch "PMC11930778" = Except.ok c9Art ∧
    c9Art.sections.all (fun kv => strTrim kv.2 = "") = true ∧
    c9Env.completed.contains "PMC11930778" = false ∧
    processAllArticles c9Env ["https://source.example/articles/PMC11930778/"] 10
      = Except.ok ⟨1, 0, 0, 1⟩ := by
  have h1 : batchExtractPmcId "https://source.example/articles/PMC11930778/"
      = Except.ok "PMC11930778" := rfl
  exact ⟨h1, rfl, by decide, rfl,
    (process_single_article_skips_empty c9Env "https://source.example/articles/PMC11930778/"
      "PMC11930778" c9Art h1 rfl (by decide) rfl).2⟩

end SpaceBio
